import Mathlib

/-!
# Verification of the Concor rule engine

Shallow embedding of the card-game rule engine found in
`src/components/ConcorGame.tsx`: the card model (`parseCard`), the meld
classifier (`isSet`, `isRun`), the combination generator
(`getCombinations`), the win evaluator (`checkWinningCondition`), the deck
builder (`createDeck`) and the turn state machine
(`drawCard`, `discardCard`, `skipTurn`, `declareWin`).

Conventions of the embedding:
* JavaScript strings are Lean `String`s; suits are the one-character
  strings produced by `slice(-1)`.
* A JavaScript object-literal lookup that misses (`CARD_VALUES[rank]`
  giving `undefined`) is modelled as the value `0`; it is never reached
  for tokens built by the deck manager.
* React state handlers that bail out early (`return` before any
  `setState`) are modelled as functions into `Option GameState`
  returning `none`: a rejected command leaves the table state unchanged.
* `Math.random`-driven choices are modelled by an oracle
  `rand : Nat → Nat`; the Fisher–Yates index `Math.floor(random()*(i+1))`
  (a value in `[0, i]`) is modelled as `rand i % (i+1)`.
-/

namespace Concor

/-- Card colors, as in the `'red' | 'black'` union of the source. -/
inductive Color where
  | red : Color
  | black : Color
deriving DecidableEq, Repr

/-- The `ParsedCard` interface of the source. -/
structure ParsedCard where
  original : String
  rank : String
  suit : String
  value : Nat
  color : Color
deriving DecidableEq, Repr

/-- The `CARD_VALUES` lookup table (object literal in the source); a miss
is modelled as 0, which no token of the fixed alphabet produces. -/
def CARD_VALUES (rank : String) : Nat :=
  if rank = "A" then 1
  else if rank = "2" then 2
  else if rank = "3" then 3
  else if rank = "4" then 4
  else if rank = "5" then 5
  else if rank = "6" then 6
  else if rank = "7" then 7
  else if rank = "8" then 8
  else if rank = "9" then 9
  else if rank = "10" then 10
  else if rank = "J" then 11
  else if rank = "Q" then 12
  else if rank = "K" then 13
  else 0

/-- The `RANK_ORDER` array of the source. -/
def RANK_ORDER : List String :=
  ["A", "2", "3", "4", "5", "6", "7", "8", "9", "10", "J", "Q", "K"]

/-- `getCardColor` from the source: hearts and diamonds are red. -/
def getCardColor (suit : String) : Color :=
  if suit = "♥" ∨ suit = "♦" then Color.red else Color.black

/-- `parseCard` from the source: the suit is the final character
(`slice(-1)`), the rank is `"10"` for three-character tokens and
everything before the suit otherwise (`slice(0, -1)`). -/
def parseCard (cardStr : String) : ParsedCard :=
  let suit := cardStr.drop (cardStr.length - 1)
  let rank := if cardStr.length = 3 then "10" else cardStr.dropRight 1
  { original := cardStr
    rank := rank
    suit := suit
    value := CARD_VALUES rank
    color := getCardColor suit }

/-- The `redCount` constant of `isSet`. -/
def redCount (cards : List ParsedCard) : Nat :=
  (cards.filter (fun c => c.color == Color.red)).length

/-- The `blackCount` constant of `isSet`. -/
def blackCount (cards : List ParsedCard) : Nat :=
  (cards.filter (fun c => c.color == Color.black)).length

/-- `isSet` from the source: 3 or 4 cards of a single rank whose red
and black counts are (2,1)/(1,2) resp. (2,2). -/
def isSet (cards : List ParsedCard) : Bool :=
  if cards.length < 3 ∨ cards.length > 4 then false
  else
    match cards with
    | [] => false
    | c0 :: _ =>
      if ¬ cards.all (fun c => c.rank == c0.rank) then false
      else
        if cards.length = 3 then
          decide ((redCount cards = 2 ∧ blackCount cards = 1) ∨
            (redCount cards = 1 ∧ blackCount cards = 2))
        else if cards.length = 4 then
          decide (redCount cards = 2 ∧ blackCount cards = 2)
        else false

/-- The adjacent `value + 1` scan of the `standardSequence` loop in
`isRun`, over the sorted list of values. -/
def isConsecutive : List Nat → Bool
  | [] => true
  | [_] => true
  | a :: b :: rest => b == a + 1 && isConsecutive (b :: rest)

/-- The `sortedCards` constant of `isRun`: a stable sort by `value`
(the `(a, b) => a.value - b.value` comparator). -/
def sortedByValue (cards : List ParsedCard) : List ParsedCard :=
  cards.mergeSort (fun a b => decide (a.value ≤ b.value))

/-- The `nonAceRanks` constant of `isRun`, as a function of the sorted
cards. -/
def nonAceRanks (sortedCards : List ParsedCard) : List String :=
  (sortedCards.filter (fun c => ¬ c.rank == "A")).map (·.rank)

/-- The `expectedHighRanks` constant of `isRun`: `RANK_ORDER.slice(-n)`,
the last `n` ranks (all of `RANK_ORDER` when `n ≥ 13`). -/
def expectedHighRanks (n : Nat) : List String :=
  RANK_ORDER.drop (RANK_ORDER.length - n)

/-- `isRun` from the source: at least 3 cards, one suit; sorted by value
the cards must be strictly consecutive, or there is exactly one Ace and
the ranks of the remaining sorted cards coincide elementwise with
`RANK_ORDER.slice(-(n-1))` (the top `n-1` ranks). -/
def isRun (cards : List ParsedCard) : Bool :=
  if cards.length < 3 then false
  else
    match cards with
    | [] => false
    | c0 :: _ =>
      if ¬ cards.all (fun c => c.suit == c0.suit) then false
      else
        if isConsecutive ((sortedByValue cards).map (·.value)) then true
        else
          if (sortedByValue cards).any (fun c => c.rank == "A") then
            if (nonAceRanks (sortedByValue cards)).length =
                (sortedByValue cards).length - 1 then
              nonAceRanks (sortedByValue cards) ==
                expectedHighRanks ((sortedByValue cards).length - 1)
            else false
          else false

/-- `getCombinations` from the source: the include/exclude backtracking
enumeration of all `k`-element subsequences, include branch first. -/
def getCombinations : List α → Nat → List (List α)
  | _, 0 => [[]]
  | [], _ + 1 => []
  | a :: as, k + 1 =>
      ((getCombinations as k).map (a :: ·)) ++ getCombinations as (k + 1)

/-- `MIN_CARDS_PER_PLAYER` from the source. -/
def MIN_CARDS_PER_PLAYER : Nat := 13

/-- The local `allPossibleMelds` closure of `checkWinningCondition`:
all size-`size` combinations that classify as a set or a run. -/
def allPossibleMelds (cards : List ParsedCard) (size : Nat) :
    List (List ParsedCard) :=
  if cards.length < size then []
  else (getCombinations cards size).filter (fun c => isSet c || isRun c)

/-- The token-based removal step of `checkWinningCondition`: keep the
cards of `hand` whose `original` is not in the `Set` of the meld's
`original` tokens. -/
def remainingAfterMeld4 (hand meld4 : List ParsedCard) : List ParsedCard :=
  hand.filter (fun card => ¬ (meld4.map (·.original)).contains card.original)

/-- The token-based disjointness test of `checkWinningCondition`
(`areDisjoint` loop): no card of the second meld has its token in the
`Set` of tokens of the first. -/
def meldsAreDisjoint (m3one m3two : List ParsedCard) : Bool :=
  m3two.all (fun c => ¬ (m3one.map (·.original)).contains c.original)

/-- The body of the `for (const meld4 of meldsOf4)` loop of
`checkWinningCondition`: after removing the 4-meld's tokens exactly 9
cards must remain, and some unordered pair of 3-melds among them must be
token-disjoint. -/
def meld4LoopBody (hand meld4 : List ParsedCard) : Bool :=
  if ¬ (remainingAfterMeld4 hand meld4).length = MIN_CARDS_PER_PLAYER - 4 then
    false
  else
    if (allPossibleMelds (remainingAfterMeld4 hand meld4) 3).length < 2 then
      false
    else
      (getCombinations (allPossibleMelds (remainingAfterMeld4 hand meld4) 3) 2).any
        (fun pair =>
          match pair with
          | [m3one, m3two] => meldsAreDisjoint m3one m3two
          | _ => false)

/-- `checkWinningCondition` from the source: a 13-token hand wins when
some 4-card set/run can be removed (token-wise, keeping 9 cards) so that
among the remainder two token-disjoint 3-card sets/runs exist. -/
def checkWinningCondition (handStrings : List String) : Bool :=
  if ¬ handStrings.length = MIN_CARDS_PER_PLAYER then false
  else
    (allPossibleMelds (handStrings.map parseCard) 4).any
      (fun meld4 => meld4LoopBody (handStrings.map parseCard) meld4)

/-- All ways of choosing a `k`-element subsequence of a list together
with the complementary subsequence of the remaining elements (needed to
state the specification's card-level removal, which keeps duplicate
tokens apart). -/
def subsetSplits : List α → Nat → List (List α × List α)
  | l, 0 => [([], l)]
  | [], _ + 1 => []
  | a :: as, k + 1 =>
      ((subsetSplits as k).map (fun p => (a :: p.1, p.2))) ++
        ((subsetSplits as (k + 1)).map (fun p => (p.1, a :: p.2)))

/-- The winning condition as worded by the specification: the hand has
13 cards and some 4-card subset satisfying `isSet` or `isRun` can be
removed — leaving the 9 other cards — such that those 9 cards contain
two 3-card subsets, sharing no card, each satisfying `isSet` or `isRun`.
Nothing is required of the 3 leftover cards. -/
def winningSpec (handStrings : List String) : Bool :=
  handStrings.length = 13 &&
    ((subsetSplits (handStrings.map parseCard) 4).any (fun s4 =>
       (isSet s4.1 || isRun s4.1) &&
         (subsetSplits s4.2 3).any (fun m3 =>
           (isSet m3.1 || isRun m3.1) &&
             (getCombinations m3.2 3).any (fun m3' =>
               isSet m3' || isRun m3'))))

/-! ## Table / turn state machine

The React component's pieces of state that the rule engine reads and
writes (`players`, `discardedCards`, `deck`, `currentPlayer`, `winner`)
are gathered into one record; the purely visual fields of a player
(`slot`, `position`) and the drag/`canDeclare` UI state are rendering
data with no effect on the table state and are not modelled.  A command
handler that bails out before calling any state setter is modelled as
returning `none`. -/

/-- The logic-relevant fields of the `Player` interface. -/
structure Player where
  id : Nat
  name : String
  cards : List String
deriving DecidableEq, Repr

/-- The `DiscardedCard` interface. -/
structure DiscardedCard where
  playerId : Nat
  card : String
deriving DecidableEq, Repr

/-- The table state owned by the component. -/
structure GameState where
  players : List Player
  discardedCards : List DiscardedCard
  deck : List String
  currentPlayer : Nat
  winner : Option Player
deriving DecidableEq, Repr

/-- `MAX_CARDS_PER_PLAYER_LOGIC` from the source. -/
def MAX_CARDS_PER_PLAYER_LOGIC : Nat := 14

/-- The `players.map((p, index) => index === i ? f(p) : p)` update
pattern used by the handlers, as a structural recursion. -/
def updateAt : List α → Nat → (α → α) → List α
  | [], _, _ => []
  | a :: as, 0, f => f a :: as
  | a :: as, i + 1, f => a :: updateAt as i f

/-- `drawCard` from the source: rejected when the game is over, the deck
is empty, the current player is missing, or the hand is at the 14-card
cap; otherwise the head of the deck moves to the end of the active hand. -/
def drawCard (s : GameState) : Option GameState :=
  if s.winner.isSome then none
  else if s.deck.length = 0 then none
  else
    match s.players.get? s.currentPlayer, s.deck with
    | some p, newCard :: deckRest =>
      if MAX_CARDS_PER_PLAYER_LOGIC ≤ p.cards.length then none
      else
        some { s with
          deck := deckRest
          players := updateAt s.players s.currentPlayer
            (fun q => { q with cards := q.cards ++ [newCard] }) }
    | _, _ => none

/-- `discardCard` from the source: rejected when the game is over, the
index misses the hand, or the hand has at most 13 cards; otherwise the
indexed card moves to the discard log and the turn advances exactly when
the remaining hand has 13 cards and does not win. -/
def discardCard (cardIndexToDiscard : Nat) (s : GameState) : Option GameState :=
  if s.winner.isSome then none
  else
    match s.players.get? s.currentPlayer with
    | none => none
    | some p =>
      match p.cards.get? cardIndexToDiscard with
      | none => none
      | some discardedItem =>
        if p.cards.length ≤ MIN_CARDS_PER_PLAYER then none
        else
          let newCards := p.cards.eraseIdx cardIndexToDiscard
          let advanceTurn :=
            if newCards.length = MIN_CARDS_PER_PLAYER ∧
                checkWinningCondition newCards = true then false
            else if MIN_CARDS_PER_PLAYER < newCards.length then false
            else true
          let updatedPlayerList := updateAt s.players s.currentPlayer
            (fun q => { q with cards := newCards })
          some { s with
            players := updatedPlayerList
            discardedCards :=
              s.discardedCards ++ [{ playerId := p.id, card := discardedItem }]
            currentPlayer :=
              if advanceTurn ∧ newCards.length = MIN_CARDS_PER_PLAYER then
                (s.currentPlayer + 1) % updatedPlayerList.length
              else s.currentPlayer }

/-- `skipTurn` from the source: only a 13-card hand that does not win may
skip; skipping advances the current player modulo the player count. -/
def skipTurn (s : GameState) : Option GameState :=
  if s.winner.isSome then none
  else
    match s.players.get? s.currentPlayer with
    | none => none
    | some p =>
      if p.cards.length = MIN_CARDS_PER_PLAYER then
        if checkWinningCondition p.cards then none
        else
          some { s with currentPlayer := (s.currentPlayer + 1) % s.players.length }
      else none

/-- `declareWin` from the source: a 13-card winning hand sets the winner;
everything else is rejected. -/
def declareWin (s : GameState) : Option GameState :=
  if s.winner.isSome then none
  else
    match s.players.get? s.currentPlayer with
    | none => none
    | some p =>
      if p.cards.length = MIN_CARDS_PER_PLAYER ∧
          checkWinningCondition p.cards = true then
        some { s with winner := some p }
      else none

/-! ## Deck manager -/

/-- The `suits` array of `createDeck`. -/
def suits : List String := ["♠", "♥", "♦", "♣"]

/-- The `values` array of `createDeck`. -/
def values : List String :=
  ["A", "2", "3", "4", "5", "6", "7", "8", "9", "10", "J", "Q", "K"]

/-- One 52-card sub-deck, in the push order of the source's nested
loops: suits outermost, ranks innermost, token `value + suit`. -/
def singleDeck : List String :=
  suits.flatMap (fun suit => values.map (fun v => v ++ suit))

/-- The concatenation of `max 1 ⌈n/2⌉` sub-decks built by `createDeck`
before shuffling. -/
def createDeckUnshuffled (numberOfPlayersForThisGame : Nat) : List String :=
  let numDecks := max 1 ((numberOfPlayersForThisGame + 1) / 2)
  (List.replicate numDecks singleDeck).flatten

/-- The `[a[i], a[j]] = [a[j], a[i]]` swap of the shuffle loop. -/
def swapNth (l : List α) (i j : Nat) : List α :=
  match l.get? i, l.get? j with
  | some a, some b => (l.set i b).set j a
  | _, _ => l

/-- The Fisher–Yates loop of `createDeck`, counting `i` down to 1 and
swapping index `i` with the random index `rand i % (i+1) ∈ [0, i]`. -/
def fisherYatesAux (rand : Nat → Nat) : List String → Nat → List String
  | l, 0 => l
  | l, i + 1 => fisherYatesAux rand (swapNth l (i + 1) (rand (i + 1) % (i + 2))) i

/-- `createDeck` from the source, with the `Math.random` draws supplied
by the oracle `rand`. -/
def createDeck (numberOfPlayersForThisGame : Nat) (rand : Nat → Nat) : List String :=
  fisherYatesAux rand (createDeckUnshuffled numberOfPlayersForThisGame)
    ((createDeckUnshuffled numberOfPlayersForThisGame).length - 1)

/-! ## Concrete hands and states used by counterexamples and witnesses -/

/-- On a list of parsed cards, the `original` token determines the card:
true of every `hand.map parseCard` since `parseCard` keeps its input. -/
def TokInj (l : List ParsedCard) : Prop :=
  ∀ c ∈ l, ∀ c' ∈ l, c.original = c'.original → c = c'

/-- A parsed card coherent with the card model: its rank is one of the
13 ranks and its value is the table value of its rank — true of every
output of `parseCard` on a deck token. -/
def validCard (c : ParsedCard) : Prop :=
  c.rank ∈ RANK_ORDER ∧ c.value = CARD_VALUES c.rank

instance : DecidablePred validCard := fun c =>
  inferInstanceAs (Decidable (c.rank ∈ RANK_ORDER ∧ c.value = CARD_VALUES c.rank))

/-- The common decomposition property both the evaluator and the
specification reduce to on a duplicate-free hand: a 4-card meld together
with two card-disjoint 3-card melds among the 9 complementary cards. -/
def WinDecomp (hand : List ParsedCard) : Prop :=
  ∃ s4, s4.Sublist hand ∧ s4.length = 4 ∧ (isSet s4 || isRun s4) = true ∧
    ∃ m1, m1.Sublist (hand.filter (fun c => decide (c ∉ s4))) ∧ m1.length = 3 ∧
      (isSet m1 || isRun m1) = true ∧
      ∃ m2, m2.Sublist ((hand.filter (fun c => decide (c ∉ s4))).filter
          (fun c => decide (c ∉ m1))) ∧ m2.length = 3 ∧ (isSet m2 || isRun m2) = true

/-- A multi-deck hand holding two copies of the token 5♠: its only
4-melds are the two position-choices of the run 4♠-5♠-6♠-7♠. -/
def dupTokenHand : List String :=
  ["4♠", "5♠", "5♠", "6♠", "7♠", "9♥", "9♠", "9♣", "J♦", "J♠", "J♣", "2♥", "K♦"]

/-- A duplicate-free winning hand: run 4♠-5♠-6♠-7♠, sets 9♥9♠9♣ and
J♦J♠J♣, leftovers 2♥ K♦ 10♥. -/
def nodupWinningHand : List String :=
  ["4♠", "5♠", "6♠", "7♠", "9♥", "9♠", "9♣", "J♦", "J♠", "J♣", "2♥", "K♦", "10♥"]

/-- A 13-card hand with no meld at all (all ranks distinct, no 3 same-suit
consecutive values). -/
def noMeldHand : List String :=
  ["A♠", "3♥", "5♦", "7♣", "9♠", "J♥", "K♦", "2♣", "4♠", "6♥", "8♦", "10♣", "Q♠"]

def winPlayer : Player := { id := 1, name := "Player 1", cards := nodupWinningHand }

def winningState : GameState :=
  { players := [winPlayer, { id := 2, name := "Player 2", cards := [] }]
    discardedCards := []
    deck := ["3♦"]
    currentPlayer := 0
    winner := none }

def finishedState : GameState := { winningState with winner := some winPlayer }

/-- A 14-card hand: the winning hand plus 3♣ at the end. -/
def hand14 : List String := nodupWinningHand ++ ["3♣"]

def discardState : GameState :=
  { players := [{ id := 1, name := "Player 1", cards := hand14 },
      { id := 2, name := "Player 2", cards := [] }]
    discardedCards := []
    deck := []
    currentPlayer := 0
    winner := none }

def skipState : GameState :=
  { players := [{ id := 1, name := "Player 1", cards := noMeldHand },
      { id := 2, name := "Player 2", cards := [] }]
    discardedCards := []
    deck := []
    currentPlayer := 0
    winner := none }

/-! ## Properties of the combination generator -/

theorem mem_getCombinations {α : Type _} {c l : List α} {k : Nat} :
    c ∈ getCombinations l k ↔ c.Sublist l ∧ c.length = k := by
  induction l generalizing c k with
  | nil =>
    cases k with
    | zero =>
      simp only [getCombinations, List.mem_singleton, List.length_eq_zero]
      constructor
      · rintro rfl; exact ⟨List.Sublist.refl _, rfl⟩
      · rintro ⟨_, rfl⟩; rfl
    | succ k =>
      simp only [getCombinations, List.not_mem_nil, false_iff, not_and]
      intro hs
      have := List.sublist_nil.mp hs
      subst this
      simp
  | cons a as ih =>
    cases k with
    | zero =>
      simp only [getCombinations, List.mem_singleton, List.length_eq_zero]
      constructor
      · rintro rfl; exact ⟨List.nil_sublist _, rfl⟩
      · rintro ⟨_, rfl⟩; rfl
    | succ k =>
      simp only [getCombinations, List.mem_append, List.mem_map, ih]
      constructor
      · rintro (⟨c', ⟨hs, hl⟩, rfl⟩ | ⟨hs, hl⟩)
        · exact ⟨List.cons_sublist_cons.mpr hs, by simp [hl]⟩
        · exact ⟨List.Sublist.cons a hs, hl⟩
      · rintro ⟨hs, hl⟩
        rcases List.sublist_cons_iff.mp hs with h | ⟨r, rfl, hr⟩
        · exact Or.inr ⟨h, hl⟩
        · exact Or.inl ⟨r, ⟨hr, by simpa using hl⟩, rfl⟩

theorem allPossibleMelds_eq_filter (cards : List ParsedCard) (size : Nat) :
    allPossibleMelds cards size =
      (getCombinations cards size).filter (fun c => isSet c || isRun c) := by
  unfold allPossibleMelds
  split
  · next h =>
    refine (List.eq_nil_iff_forall_not_mem.mpr fun x hx => ?_).symm
    have hm := List.mem_filter.mp hx
    obtain ⟨hs, hlen⟩ := mem_getCombinations.mp hm.1
    have := hs.length_le
    omega
  · rfl

theorem filter_not_mem_cons {α : Type _} [DecidableEq α] {a : α} {as s : List α}
    (ha : a ∉ as) :
    as.filter (fun x => decide (x ∉ a :: s)) = as.filter (fun x => decide (x ∉ s)) := by
  apply List.filter_congr
  intro x hx
  have hxa : x ≠ a := fun h => ha (h ▸ hx)
  simp [hxa]

theorem filter_not_mem_cons_of_mem {α : Type _} [DecidableEq α] {a : α}
    {as s : List α} (hmem : a ∈ s) :
    (a :: as).filter (fun x => decide (x ∉ s)) =
      as.filter (fun x => decide (x ∉ s)) := by
  simp [List.filter_cons, hmem]

theorem filter_not_mem_cons_of_not_mem {α : Type _} [DecidableEq α] {a : α}
    {as s : List α} (hmem : a ∉ s) :
    (a :: as).filter (fun x => decide (x ∉ s)) =
      a :: as.filter (fun x => decide (x ∉ s)) := by
  simp [List.filter_cons, hmem]

theorem mem_subsetSplits {α : Type _} [DecidableEq α] {l : List α} (hl : l.Nodup)
    {s r : List α} {k : Nat} :
    (s, r) ∈ subsetSplits l k ↔
      s.Sublist l ∧ s.length = k ∧ r = l.filter (fun x => decide (x ∉ s)) := by
  induction l generalizing s r k with
  | nil =>
    cases k with
    | zero =>
      simp only [subsetSplits, List.mem_singleton, Prod.mk.injEq]
      constructor
      · rintro ⟨rfl, rfl⟩
        exact ⟨List.Sublist.refl _, rfl, rfl⟩
      · rintro ⟨hs, hlen, rfl⟩
        have : s = [] := List.sublist_nil.mp hs
        subst this
        exact ⟨rfl, rfl⟩
    | succ k =>
      simp only [subsetSplits, List.not_mem_nil, false_iff, not_and]
      intro hs
      have : s = [] := List.sublist_nil.mp hs
      subst this
      simp
  | cons a as ih =>
    obtain ⟨ha, has⟩ := List.nodup_cons.mp hl
    cases k with
    | zero =>
      simp only [subsetSplits, List.mem_singleton, Prod.mk.injEq]
      constructor
      · rintro ⟨rfl, rfl⟩
        refine ⟨List.nil_sublist _, rfl, ?_⟩
        simp
      · rintro ⟨hs, hlen, rfl⟩
        have : s = [] := List.length_eq_zero.mp hlen
        subst this
        simp
    | succ k =>
      simp only [subsetSplits, List.mem_append, List.mem_map, Prod.ext_iff]
      constructor
      · rintro (⟨⟨s', r'⟩, hp, hs, hr⟩ | ⟨⟨s', r'⟩, hp, hs, hr⟩) <;>
          simp only at hs hr <;> subst hs <;> subst hr
        · obtain ⟨hsub, hlen, hrest⟩ := (ih has).mp hp
          refine ⟨List.cons_sublist_cons.mpr hsub, by simp [hlen], ?_⟩
          rw [filter_not_mem_cons_of_mem (List.mem_cons_self a s'),
            filter_not_mem_cons ha, ← hrest]
        · obtain ⟨hsub, hlen, hrest⟩ := (ih has).mp hp
          have hanotin : a ∉ s' := fun h => ha (hsub.subset h)
          refine ⟨List.Sublist.cons a hsub, hlen, ?_⟩
          rw [filter_not_mem_cons_of_not_mem hanotin, ← hrest]
      · rintro ⟨hs, hlen, rfl⟩
        rcases List.sublist_cons_iff.mp hs with h | ⟨r', rfl, hr⟩
        · refine Or.inr ⟨⟨s, as.filter (fun x => decide (x ∉ s))⟩, ?_, rfl, ?_⟩
          · exact (ih has).mpr ⟨h, hlen, rfl⟩
          · have hanotin : a ∉ s := fun hmem => ha (h.subset hmem)
            rw [filter_not_mem_cons_of_not_mem hanotin]
        · refine Or.inl ⟨⟨r', as.filter (fun x => decide (x ∉ r'))⟩, ?_, rfl, ?_⟩
          · exact (ih has).mpr ⟨hr, by simpa using hlen, rfl⟩
          · rw [filter_not_mem_cons_of_mem (List.mem_cons_self a r'),
              filter_not_mem_cons ha]

theorem filter_mem_of_sublist {α : Type _} [DecidableEq α] {s l : List α}
    (h : s.Sublist l) : l.Nodup → l.filter (fun x => decide (x ∈ s)) = s := by
  induction h with
  | slnil => intro _; rfl
  | @cons l₁ l₂ a h ih =>
    intro hl
    obtain ⟨ha, hnd⟩ := List.nodup_cons.mp hl
    have hanotin : a ∉ l₁ := fun hmem => ha (h.subset hmem)
    rw [List.filter_cons_of_neg (by simpa using hanotin), ih hnd]
  | @cons₂ l₁ l₂ a h ih =>
    intro hl
    obtain ⟨ha, hnd⟩ := List.nodup_cons.mp hl
    have hcongr : List.filter (fun x => decide (x ∈ a :: l₁)) l₂ =
        List.filter (fun x => decide (x ∈ l₁)) l₂ := by
      apply List.filter_congr
      intro x hx
      have hxa : x ≠ a := fun hh => ha (hh ▸ hx)
      simp [hxa]
    rw [List.filter_cons_of_pos (by simp), hcongr, ih hnd]

theorem length_filter_not_mem {α : Type _} [DecidableEq α] {s l : List α}
    (h : s.Sublist l) (hl : l.Nodup) :
    (l.filter (fun x => decide (x ∉ s))).length = l.length - s.length := by
  have h1 := List.length_eq_countP_add_countP (fun x => decide (x ∈ s)) l
  have h2 := List.countP_eq_length_filter (fun x => decide (x ∈ s)) l
  have h3 := List.countP_eq_length_filter
    (fun x => decide ¬(decide (x ∈ s)) = true) l
  rw [filter_mem_of_sublist h hl] at h2
  have h4 : l.filter (fun x => decide ¬(decide (x ∈ s)) = true) =
      l.filter (fun x => decide (x ∉ s)) := by
    apply List.filter_congr
    intro x _
    by_cases hx : x ∈ s <;> simp [hx]
  rw [h4] at h3
  omega

theorem sublist_filter_not_mem_iff {α : Type _} [DecidableEq α] {m s l : List α} :
    m.Sublist (l.filter (fun x => decide (x ∉ s))) ↔
      m.Sublist l ∧ ∀ x ∈ m, x ∉ s := by
  constructor
  · intro h
    refine ⟨h.trans (List.filter_sublist l), fun x hx => ?_⟩
    have := List.mem_filter.mp (h.subset hx)
    simpa using this.2
  · rintro ⟨hs, hall⟩
    have heq : m.filter (fun x => decide (x ∉ s)) = m :=
      List.filter_eq_self.mpr fun a ha => by simpa using hall a ha
    have h2 := hs.filter (fun x => decide (x ∉ s))
    rwa [heq] at h2

theorem pair_sublist_of_mem {α : Type _} {x y : α} {l : List α}
    (hx : x ∈ l) (hy : y ∈ l) (hne : x ≠ y) :
    [x, y].Sublist l ∨ [y, x].Sublist l := by
  induction l with
  | nil => cases hx
  | cons a as ih =>
    rcases List.mem_cons.mp hx with rfl | hx'
    · have hy' : y ∈ as := by
        rcases List.mem_cons.mp hy with rfl | h
        · exact absurd rfl hne
        · exact h
      left
      exact List.cons_sublist_cons.mpr (List.singleton_sublist.mpr hy')
    · rcases List.mem_cons.mp hy with rfl | hy'
      · right
        exact List.cons_sublist_cons.mpr (List.singleton_sublist.mpr hx')
      · rcases ih hx' hy' with h | h
        · exact Or.inl (List.Sublist.cons a h)
        · exact Or.inr (List.Sublist.cons a h)

/-! ## Token identity -/

theorem parseCard_original (s : String) : (parseCard s).original = s := rfl


theorem tokInj_map_parseCard (hs : List String) : TokInj (hs.map parseCard) := by
  intro c hc c' hc' h
  obtain ⟨s, _, rfl⟩ := List.mem_map.mp hc
  obtain ⟨s', _, rfl⟩ := List.mem_map.mp hc'
  simpa [parseCard_original] using congrArg parseCard h

theorem tokInj_sublist {l l' : List ParsedCard} (h : l'.Sublist l)
    (hl : TokInj l) : TokInj l' :=
  fun c hc c' hc' heq => hl c (h.subset hc) c' (h.subset hc') heq

theorem nodup_map_parseCard {hs : List String} (h : hs.Nodup) :
    (hs.map parseCard).Nodup :=
  h.map fun _ _ hpq => by
    simpa [parseCard_original] using congrArg ParsedCard.original hpq

theorem contains_original_iff {m : List ParsedCard} {t : String} :
    (m.map (·.original)).contains t = true ↔ ∃ c ∈ m, c.original = t := by
  rw [List.contains_eq_any_beq, List.any_eq_true]
  constructor
  · rintro ⟨u, hu, hbeq⟩
    obtain ⟨c, hc, rfl⟩ := List.mem_map.mp hu
    exact ⟨c, hc, (by simpa using hbeq : t = c.original).symm⟩
  · rintro ⟨c, hc, rfl⟩
    exact ⟨c.original, List.mem_map_of_mem _ hc, by simp⟩

theorem mem_remainingAfterMeld4 {hand meld4 : List ParsedCard} {c : ParsedCard} :
    c ∈ remainingAfterMeld4 hand meld4 ↔
      c ∈ hand ∧ ∀ c' ∈ meld4, c.original ≠ c'.original := by
  unfold remainingAfterMeld4
  rw [List.mem_filter, decide_eq_true_eq, contains_original_iff]
  constructor
  · rintro ⟨hmem, hdec⟩
    exact ⟨hmem, fun c' hc' heq => hdec ⟨c', hc', heq.symm⟩⟩
  · rintro ⟨hmem, hall⟩
    exact ⟨hmem, fun hex => by
      obtain ⟨c', hc', heq⟩ := hex
      exact hall c' hc' heq.symm⟩

theorem meldsAreDisjoint_iff {m3one m3two : List ParsedCard} :
    meldsAreDisjoint m3one m3two = true ↔
      ∀ c1 ∈ m3one, ∀ c2 ∈ m3two, c1.original ≠ c2.original := by
  unfold meldsAreDisjoint
  rw [List.all_eq_true]
  constructor
  · intro h c1 h1 c2 h2 heq
    have h2' := h c2 h2
    rw [decide_eq_true_eq, contains_original_iff] at h2'
    exact h2' ⟨c1, h1, heq⟩
  · intro h c2 h2
    rw [decide_eq_true_eq, contains_original_iff]
    rintro ⟨c1, h1, heq⟩
    exact h c1 h1 c2 h2 heq

theorem remainingAfterMeld4_eq_filter {hand meld4 : List ParsedCard}
    (hinj : TokInj hand) (hsub : ∀ c ∈ meld4, c ∈ hand) :
    remainingAfterMeld4 hand meld4 =
      hand.filter (fun c => decide (c ∉ meld4)) := by
  unfold remainingAfterMeld4
  apply List.filter_congr
  intro c hc
  rw [decide_eq_decide, contains_original_iff]
  constructor
  · intro h hmem
    exact h ⟨c, hmem, rfl⟩
  · rintro hnot ⟨c', hc', heq⟩
    exact hnot (hinj c' (hsub c' hc') c hc heq ▸ hc')

/-! ## Claim C4: characterization of `isSet` -/

theorem isSet_cons (c0 : ParsedCard) (rest : List ParsedCard) :
    isSet (c0 :: rest) =
      if (c0 :: rest).length < 3 ∨ (c0 :: rest).length > 4 then false
      else if ¬ (c0 :: rest).all (fun c => c.rank == c0.rank) then false
      else if (c0 :: rest).length = 3 then
        decide ((redCount (c0 :: rest) = 2 ∧ blackCount (c0 :: rest) = 1) ∨
          (redCount (c0 :: rest) = 1 ∧ blackCount (c0 :: rest) = 2))
      else if (c0 :: rest).length = 4 then
        decide (redCount (c0 :: rest) = 2 ∧ blackCount (c0 :: rest) = 2)
      else false := by
  unfold isSet
  rfl

theorem all_rank_eq {c0 : ParsedCard} {rest : List ParsedCard}
    (h : ((c0 :: rest).all fun c => c.rank == c0.rank) = true) :
    ∀ c1 ∈ c0 :: rest, ∀ c2 ∈ c0 :: rest, c1.rank = c2.rank := by
  have h' := List.all_eq_true.mp h
  intro c1 hc1 c2 hc2
  have e1 : c1.rank = c0.rank := by simpa using h' c1 hc1
  have e2 : c2.rank = c0.rank := by simpa using h' c2 hc2
  rw [e1, e2]

/-- C4: `isSet` holds iff the group has exactly 3 or 4 cards, all cards
share one rank, and the red/black color counts are exactly 2–1 or 1–2
for a 3-card group and exactly 2–2 for a 4-card group (so a same-rank
triple whose three cards share a color is rejected). -/
theorem claim_C4_isSet_characterization (cards : List ParsedCard) :
    isSet cards = true ↔
      (∀ c1 ∈ cards, ∀ c2 ∈ cards, c1.rank = c2.rank) ∧
      ((cards.length = 3 ∧
          ((redCount cards = 2 ∧ blackCount cards = 1) ∨
           (redCount cards = 1 ∧ blackCount cards = 2))) ∨
       (cards.length = 4 ∧ redCount cards = 2 ∧ blackCount cards = 2)) := by
  cases cards with
  | nil => simp [isSet]
  | cons c0 rest =>
    rw [isSet_cons]
    split_ifs with h1 h2 h3 h4
    · simp only [Bool.false_eq_true, false_iff]
      rintro ⟨-, (⟨hl, -⟩ | ⟨hl, -⟩)⟩ <;> omega
    · rw [decide_eq_true_eq]
      constructor
      · intro hA
        exact ⟨all_rank_eq h2, Or.inl ⟨h3, hA⟩⟩
      · rintro ⟨-, (⟨-, hA⟩ | ⟨h4', -⟩)⟩
        · exact hA
        · omega
    · rw [decide_eq_true_eq]
      constructor
      · intro hA
        exact ⟨all_rank_eq h2, Or.inr ⟨h4, hA⟩⟩
      · rintro ⟨-, (⟨h3', -⟩ | ⟨-, hA⟩)⟩
        · omega
        · exact hA
    · simp only [Bool.false_eq_true, false_iff]
      rintro ⟨-, (⟨hl, -⟩ | ⟨hl, -⟩)⟩ <;> omega
    · simp only [Bool.false_eq_true, false_iff]
      rintro ⟨hranks, -⟩
      exact h2 (List.all_eq_true.mpr fun c hc => by
        simp [hranks c hc c0 (List.mem_cons_self _ _)])

/-! ## Claim C5: characterization of `isRun` -/


theorem sortedByValue_perm (cards : List ParsedCard) :
    (sortedByValue cards).Perm cards :=
  List.mergeSort_perm cards _

theorem sortedByValue_sorted (cards : List ParsedCard) :
    (sortedByValue cards).Pairwise (fun a b => a.value ≤ b.value) := by
  have h : (cards.mergeSort (fun a b => decide (a.value ≤ b.value))).Pairwise
      (fun a b => (decide (a.value ≤ b.value)) = true) :=
    List.sorted_mergeSort
      (fun a b c hab hbc => by
        simp only [decide_eq_true_eq] at *
        omega)
      (fun a b => by
        rcases Nat.le_total a.value b.value with h | h <;> simp [h])
      cards
  exact h.imp fun hab => by simpa using hab

theorem isConsecutive_eq_range' :
    ∀ {a : Nat} {t : List Nat}, isConsecutive (a :: t) = true →
      a :: t = List.range' a (t.length + 1) := by
  intro a t
  induction t generalizing a with
  | nil => intro _; rfl
  | cons b t' ih =>
    intro h
    rw [isConsecutive] at h
    obtain ⟨hb, hrec⟩ := Bool.and_eq_true_iff.mp h
    have hb' : b = a + 1 := by simpa using hb
    subst hb'
    rw [List.range'_succ]
    simp only [List.length_cons]
    rw [← ih hrec]

theorem isConsecutive_range' : ∀ (n a : Nat), isConsecutive (List.range' a n) = true := by
  intro n
  induction n with
  | zero => intro a; rfl
  | succ n ih =>
    intro a
    cases n with
    | zero => rfl
    | succ m =>
      rw [List.range'_succ, List.range'_succ, isConsecutive]
      simpa [List.range'_succ] using ih (a + 1)

theorem rank_card_values_inj :
    ∀ r1 ∈ RANK_ORDER, ∀ r2 ∈ RANK_ORDER, CARD_VALUES r1 = CARD_VALUES r2 → r1 = r2 := by
  decide

theorem rank_order_pairwise :
    RANK_ORDER.Pairwise (fun r1 r2 => CARD_VALUES r1 < CARD_VALUES r2) := by
  decide

theorem expectedHighRanks_pairwise (n : Nat) :
    (expectedHighRanks n).Pairwise (fun r1 r2 => CARD_VALUES r1 < CARD_VALUES r2) :=
  rank_order_pairwise.sublist (List.drop_sublist _ _)

theorem isRun_cons (c0 : ParsedCard) (rest : List ParsedCard) :
    isRun (c0 :: rest) =
      if (c0 :: rest).length < 3 then false
      else if ¬ (c0 :: rest).all (fun c => c.suit == c0.suit) then false
      else if isConsecutive ((sortedByValue (c0 :: rest)).map (·.value)) then true
      else if (sortedByValue (c0 :: rest)).any (fun c => c.rank == "A") then
        if (nonAceRanks (sortedByValue (c0 :: rest))).length =
            (sortedByValue (c0 :: rest)).length - 1 then
          nonAceRanks (sortedByValue (c0 :: rest)) ==
            expectedHighRanks ((sortedByValue (c0 :: rest)).length - 1)
        else false
      else false := by
  unfold isRun
  rfl

theorem all_suit_eq {c0 : ParsedCard} {rest : List ParsedCard}
    (h : ((c0 :: rest).all fun c => c.suit == c0.suit) = true) :
    ∀ c1 ∈ c0 :: rest, ∀ c2 ∈ c0 :: rest, c1.suit = c2.suit := by
  have h' := List.all_eq_true.mp h
  intro c1 hc1 c2 hc2
  have e1 : c1.suit = c0.suit := by simpa using h' c1 hc1
  have e2 : c2.suit = c0.suit := by simpa using h' c2 hc2
  rw [e1, e2]

/-- The standard-sequence branch of `isRun` recognizes exactly the groups
whose multiset of values is a consecutive interval. -/
theorem standardSequence_iff (cards : List ParsedCard) :
    isConsecutive ((sortedByValue cards).map (·.value)) = true ↔
      ∃ a, (cards.map (·.value)).Perm (List.range' a cards.length) := by
  have hpm : ((sortedByValue cards).map (·.value)).Perm (cards.map (·.value)) :=
    (sortedByValue_perm cards).map _
  constructor
  · intro h
    cases hS : (sortedByValue cards).map (·.value) with
    | nil =>
      have h0 : cards.map (·.value) = [] :=
        List.nil_perm.mp (hS ▸ hpm)
      have hl : cards.length = 0 := by
        simpa using congrArg List.length h0
      exact ⟨0, by simp [h0, hl]⟩
    | cons v t =>
      have heq := isConsecutive_eq_range' (hS ▸ h)
      have hlt : t.length + 1 = cards.length := by
        have := congrArg List.length hS
        simpa using (this.symm.trans (by simpa using hpm.length_eq))
      refine ⟨v, ?_⟩
      rw [← hlt, ← heq]
      exact (hS ▸ hpm).symm
  · rintro ⟨a, hp⟩
    have hsorted : ((sortedByValue cards).map (·.value)).Pairwise (· ≤ ·) :=
      (sortedByValue_sorted cards).map _ (fun _ _ h => h)
    have hrange : (List.range' a cards.length).Pairwise (· ≤ ·) :=
      (List.pairwise_lt_range' a cards.length).imp Nat.le_of_lt
    have hp2 : ((sortedByValue cards).map (·.value)).Perm
        (List.range' a cards.length) := hpm.trans hp
    have heq := List.eq_of_perm_of_sorted hp2 hsorted hrange
    rw [heq]
    exact isConsecutive_range' _ _

theorem nonAceRanks_length (cards : List ParsedCard) :
    (nonAceRanks (sortedByValue cards)).length =
      (cards.filter (fun c => ¬ c.rank == "A")).length := by
  unfold nonAceRanks
  rw [List.length_map]
  exact ((sortedByValue_perm cards).filter _).length_eq

theorem length_filter_ace_split (cards : List ParsedCard) :
    (cards.filter (fun c => c.rank == "A")).length +
      (cards.filter (fun c => ¬ c.rank == "A")).length = cards.length := by
  have h := List.length_eq_countP_add_countP
    (fun c : ParsedCard => c.rank == "A") cards
  rw [List.countP_eq_length_filter, List.countP_eq_length_filter] at h
  omega

/-- A permutation of one of the `expectedHighRanks` suffixes that lists
the ranks of value-sorted valid cards must be that suffix itself. -/
theorem nonAceRanks_eq_of_perm (cards : List ParsedCard)
    (hv : ∀ c ∈ cards, validCard c) {n : Nat}
    (hp : (nonAceRanks (sortedByValue cards)).Perm (expectedHighRanks n)) :
    nonAceRanks (sortedByValue cards) = expectedHighRanks n := by
  have hvS : ∀ c ∈ sortedByValue cards, validCard c :=
    fun c hc => hv c ((sortedByValue_perm cards).subset hc)
  have hFsub : ((sortedByValue cards).filter (fun c => ¬ c.rank == "A")).Sublist
      (sortedByValue cards) := List.filter_sublist _
  have h1 : ((sortedByValue cards).filter (fun c => ¬ c.rank == "A")).Pairwise
      (fun c c' => c.value ≤ c'.value) :=
    (sortedByValue_sorted cards).sublist hFsub
  have h1' : ((sortedByValue cards).filter (fun c => ¬ c.rank == "A")).Pairwise
      (fun c c' => CARD_VALUES c.rank ≤ CARD_VALUES c'.rank) :=
    h1.imp_of_mem (fun {a b} ha hb hab => by
      rw [← (hvS a (hFsub.subset ha)).2, ← (hvS b (hFsub.subset hb)).2]
      exact hab)
  have h2 : (nonAceRanks (sortedByValue cards)).Pairwise
      (fun r1 r2 => CARD_VALUES r1 ≤ CARD_VALUES r2) :=
    h1'.map _ (fun _ _ h => h)
  have hmemRO : ∀ r ∈ nonAceRanks (sortedByValue cards), r ∈ RANK_ORDER := by
    intro r hr
    obtain ⟨c, hc, rfl⟩ := List.mem_map.mp hr
    exact (hvS c (hFsub.subset hc)).1
  have hndE : (expectedHighRanks n).Nodup :=
    (expectedHighRanks_pairwise n).imp
      (fun hab heq => absurd (heq ▸ hab) (Nat.lt_irrefl _))
  have hnd : (nonAceRanks (sortedByValue cards)).Nodup := hp.nodup_iff.mpr hndE
  have hstrict : (nonAceRanks (sortedByValue cards)).Pairwise
      (fun r1 r2 => CARD_VALUES r1 < CARD_VALUES r2) := by
    have hand := h2.and hnd
    exact hand.imp_of_mem (fun {a b} ha hb hpair =>
      Nat.lt_of_le_of_ne hpair.1 (fun he =>
        hpair.2 (rank_card_values_inj a (hmemRO a ha) b (hmemRO b hb) he)))
  haveI : IsAntisymm String (fun r1 r2 => CARD_VALUES r1 < CARD_VALUES r2) :=
    ⟨fun a b hab hba => absurd (Nat.lt_trans hab hba) (Nat.lt_irrefl _)⟩
  exact List.eq_of_perm_of_sorted hp hstrict (expectedHighRanks_pairwise n)

/-- C5: `isRun` holds iff the group has at least 3 cards of one suit and
either its multiset of values is a consecutive interval, or it has
exactly one Ace and the multiset of its remaining ranks is exactly the
topmost `n-1` ranks of the rank order below the Ace. -/
theorem claim_C5_isRun_characterization (cards : List ParsedCard)
    (hv : ∀ c ∈ cards, validCard c) :
    isRun cards = true ↔
      3 ≤ cards.length ∧
      (∀ c1 ∈ cards, ∀ c2 ∈ cards, c1.suit = c2.suit) ∧
      ((∃ a, (cards.map (·.value)).Perm (List.range' a cards.length)) ∨
       ((cards.filter (fun c => c.rank == "A")).length = 1 ∧
        ((cards.filter (fun c => ¬ c.rank == "A")).map (·.rank)).Perm
          (expectedHighRanks (cards.length - 1)))) := by
  cases cards with
  | nil => simp [isRun]
  | cons c0 rest =>
    have hlenS : (sortedByValue (c0 :: rest)).length = (c0 :: rest).length :=
      (sortedByValue_perm _).length_eq
    have hnl := nonAceRanks_length (c0 :: rest)
    have hsplit := length_filter_ace_split (c0 :: rest)
    have hfperm : (((c0 :: rest).filter (fun c => ¬ c.rank == "A")).map (·.rank)).Perm
        (nonAceRanks (sortedByValue (c0 :: rest))) :=
      (((sortedByValue_perm _).filter _).map _).symm
    rw [isRun_cons]
    split_ifs with h1 h2 h3 h4 h5
    · simp only [Bool.false_eq_true, false_iff]
      rintro ⟨hl, -⟩
      omega
    · constructor
      · intro _
        exact ⟨by omega, all_suit_eq h2, Or.inl ((standardSequence_iff _).mp h3)⟩
      · intro _
        rfl
    · rw [beq_iff_eq]
      constructor
      · intro heq
        refine ⟨by omega, all_suit_eq h2, Or.inr ⟨by omega, ?_⟩⟩
        rw [← hlenS]
        exact hfperm.trans (heq ▸ List.Perm.refl _)
      · rintro ⟨-, -, (hstd | ⟨hone, hperm⟩)⟩
        · exact absurd ((standardSequence_iff _).mpr hstd) h3
        · have hp : (nonAceRanks (sortedByValue (c0 :: rest))).Perm
              (expectedHighRanks ((sortedByValue (c0 :: rest)).length - 1)) := by
            rw [hlenS]
            exact hfperm.symm.trans hperm
          exact nonAceRanks_eq_of_perm _ hv hp
    · simp only [Bool.false_eq_true, false_iff]
      rintro ⟨h3le, -, (hstd | ⟨hone, -⟩)⟩
      · exact h3 ((standardSequence_iff _).mpr hstd)
      · exact h5 (by omega)
    · simp only [Bool.false_eq_true, false_iff]
      rintro ⟨h3le, -, (hstd | ⟨hone, -⟩)⟩
      · exact h3 ((standardSequence_iff _).mpr hstd)
      · have hpos : ((c0 :: rest).filter (fun c => c.rank == "A")) ≠ [] := by
          intro hnil
          rw [hnil] at hone
          simp at hone
        obtain ⟨c, hc⟩ := List.exists_mem_of_ne_nil _ hpos
        obtain ⟨hcmem, hcr⟩ := List.mem_filter.mp hc
        exact h4 (List.any_eq_true.mpr
          ⟨c, (sortedByValue_perm _).mem_iff.mpr hcmem, hcr⟩)
    · simp only [Bool.false_eq_true, false_iff]
      rintro ⟨-, hsuits, -⟩
      exact h2 (List.all_eq_true.mpr fun c hc => by
        simp [hsuits c hc c0 (List.mem_cons_self _ _)])

/-! ## Claim C1: the win evaluator against its specification -/


theorem mem_allPossibleMelds {cards : List ParsedCard} {m : List ParsedCard} {k : Nat} :
    m ∈ allPossibleMelds cards k ↔
      m.Sublist cards ∧ m.length = k ∧ (isSet m || isRun m) = true := by
  rw [allPossibleMelds_eq_filter, List.mem_filter, mem_getCombinations]
  tauto

theorem winningSpec_iff {hs : List String} (hnd : hs.Nodup) :
    winningSpec hs = true ↔ hs.length = 13 ∧ WinDecomp (hs.map parseCard) := by
  have hndP : (hs.map parseCard).Nodup := nodup_map_parseCard hnd
  unfold winningSpec
  rw [Bool.and_eq_true_iff, decide_eq_true_eq]
  refine and_congr_right fun _ => ?_
  rw [List.any_eq_true]
  constructor
  · rintro ⟨⟨s4, r9⟩, hmem, hbody⟩
    obtain ⟨hsub4, hlen4, hr9⟩ := (mem_subsetSplits hndP).mp hmem
    rw [Bool.and_eq_true_iff] at hbody
    obtain ⟨hmeld4, hinner⟩ := hbody
    rw [List.any_eq_true] at hinner
    obtain ⟨⟨m1, r6⟩, hmem1, hbody1⟩ := hinner
    have hndr9 : r9.Nodup := by rw [hr9]; exact hndP.filter _
    obtain ⟨hsub1, hlen1, hr6⟩ := (mem_subsetSplits hndr9).mp hmem1
    rw [Bool.and_eq_true_iff] at hbody1
    obtain ⟨hmeld1, hinner1⟩ := hbody1
    rw [List.any_eq_true] at hinner1
    obtain ⟨m2, hmem2, hmeld2⟩ := hinner1
    obtain ⟨hsub2, hlen2⟩ := mem_getCombinations.mp hmem2
    subst hr9
    subst hr6
    exact ⟨s4, hsub4, hlen4, hmeld4, m1, hsub1, hlen1, hmeld1,
      m2, hsub2, hlen2, hmeld2⟩
  · rintro ⟨s4, hsub4, hlen4, hmeld4, m1, hsub1, hlen1, hmeld1,
      m2, hsub2, hlen2, hmeld2⟩
    refine ⟨(s4, (hs.map parseCard).filter (fun c => decide (c ∉ s4))),
      (mem_subsetSplits hndP).mpr ⟨hsub4, hlen4, rfl⟩, ?_⟩
    rw [Bool.and_eq_true_iff]
    refine ⟨hmeld4, ?_⟩
    rw [List.any_eq_true]
    refine ⟨(m1, ((hs.map parseCard).filter (fun c => decide (c ∉ s4))).filter
        (fun c => decide (c ∉ m1))),
      (mem_subsetSplits (hndP.filter _)).mpr ⟨hsub1, hlen1, rfl⟩, ?_⟩
    rw [Bool.and_eq_true_iff]
    exact ⟨hmeld1, List.any_eq_true.mpr
      ⟨m2, mem_getCombinations.mpr ⟨hsub2, hlen2⟩, hmeld2⟩⟩

theorem meld4LoopBody_iff {hand m4 : List ParsedCard} (hnd : hand.Nodup)
    (hinj : TokInj hand) (hsub : m4.Sublist hand) (hlen4 : m4.length = 4)
    (hhand : hand.length = 13) :
    meld4LoopBody hand m4 = true ↔
      ∃ m1, m1.Sublist (hand.filter (fun c => decide (c ∉ m4))) ∧ m1.length = 3 ∧
        (isSet m1 || isRun m1) = true ∧
        ∃ m2, m2.Sublist ((hand.filter (fun c => decide (c ∉ m4))).filter
            (fun c => decide (c ∉ m1))) ∧ m2.length = 3 ∧
          (isSet m2 || isRun m2) = true := by
  have hrem : remainingAfterMeld4 hand m4 =
      hand.filter (fun c => decide (c ∉ m4)) :=
    remainingAfterMeld4_eq_filter hinj (fun c hc => hsub.subset hc)
  have hlen9 : (remainingAfterMeld4 hand m4).length = 9 := by
    rw [hrem, length_filter_not_mem hsub hnd, hhand, hlen4]
  unfold meld4LoopBody
  rw [if_neg (by rw [hlen9]; intro h; exact h rfl)]
  rw [hrem] at hlen9 ⊢
  constructor
  · intro h
    by_cases hg : (allPossibleMelds
        (hand.filter (fun c => decide (c ∉ m4))) 3).length < 2
    · rw [if_pos hg] at h
      cases h
    · rw [if_neg hg, List.any_eq_true] at h
      obtain ⟨pair, hpmem, hpval⟩ := h
      obtain ⟨hpsub, hplen⟩ := mem_getCombinations.mp hpmem
      match pair, hplen with
      | [x, y], _ =>
        have hx := mem_allPossibleMelds.mp
          (hpsub.subset (List.mem_cons_self x [y]))
        have hy := mem_allPossibleMelds.mp
          (hpsub.subset (List.mem_cons_of_mem x (List.mem_cons_self y [])))
        have hdis : meldsAreDisjoint x y = true := hpval
        refine ⟨x, hx.1, hx.2.1, hx.2.2, y, ?_, hy.2.1, hy.2.2⟩
        refine sublist_filter_not_mem_iff.mpr ⟨hy.1, fun c hc hcin => ?_⟩
        exact meldsAreDisjoint_iff.mp hdis c hcin c hc rfl
  · rintro ⟨m1, h1sub, h1len, h1meld, m2, h2subf, h2len, h2meld⟩
    obtain ⟨h2sub, h2notin⟩ := sublist_filter_not_mem_iff.mp h2subf
    have hm1 : m1 ∈ allPossibleMelds (hand.filter (fun c => decide (c ∉ m4))) 3 :=
      mem_allPossibleMelds.mpr ⟨h1sub, h1len, h1meld⟩
    have hm2 : m2 ∈ allPossibleMelds (hand.filter (fun c => decide (c ∉ m4))) 3 :=
      mem_allPossibleMelds.mpr ⟨h2sub, h2len, h2meld⟩
    have hne : m1 ≠ m2 := by
      intro he
      have hnil : m2 ≠ [] := by
        intro hn
        rw [hn] at h2len
        cases h2len
      obtain ⟨c, hc⟩ := List.exists_mem_of_ne_nil _ hnil
      exact h2notin c hc (he ▸ hc)
    have hdis : ∀ c1 ∈ m1, ∀ c2 ∈ m2, c1.original ≠ c2.original := by
      intro c1 hc1 c2 hc2 he
      have hc1h : c1 ∈ hand :=
        (h1sub.trans (List.filter_sublist _)).subset hc1
      have hc2h : c2 ∈ hand :=
        (h2sub.trans (List.filter_sublist _)).subset hc2
      have heq := hinj c1 hc1h c2 hc2h he
      exact h2notin c2 hc2 (heq ▸ hc1)
    rcases pair_sublist_of_mem hm1 hm2 hne with hp | hp
    · rw [if_neg (by
        have := hp.length_le
        rw [List.length_cons, List.length_cons, List.length_nil] at this
        omega), List.any_eq_true]
      exact ⟨[m1, m2], mem_getCombinations.mpr ⟨hp, rfl⟩,
        meldsAreDisjoint_iff.mpr hdis⟩
    · rw [if_neg (by
        have := hp.length_le
        rw [List.length_cons, List.length_cons, List.length_nil] at this
        omega), List.any_eq_true]
      exact ⟨[m2, m1], mem_getCombinations.mpr ⟨hp, rfl⟩,
        meldsAreDisjoint_iff.mpr
          (fun c1 hc1 c2 hc2 he => hdis c2 hc2 c1 hc1 he.symm)⟩

theorem checkWinningCondition_iff {hs : List String} (hnd : hs.Nodup) :
    checkWinningCondition hs = true ↔
      hs.length = 13 ∧ WinDecomp (hs.map parseCard) := by
  have hndP : (hs.map parseCard).Nodup := nodup_map_parseCard hnd
  have hinj : TokInj (hs.map parseCard) := tokInj_map_parseCard hs
  unfold checkWinningCondition
  by_cases hlen : hs.length = MIN_CARDS_PER_PLAYER
  · rw [if_neg (not_not_intro hlen), List.any_eq_true]
    have hlen13 : hs.length = 13 := hlen
    have hhand : (hs.map parseCard).length = 13 := by
      rw [List.length_map]; exact hlen13
    rw [and_iff_right hlen13]
    constructor
    · rintro ⟨m4, hmem, hbody⟩
      obtain ⟨hsub4, hlen4, hmeld4⟩ := mem_allPossibleMelds.mp hmem
      exact ⟨m4, hsub4, hlen4, hmeld4,
        (meld4LoopBody_iff hndP hinj hsub4 hlen4 hhand).mp hbody⟩
    · rintro ⟨s4, hsub4, hlen4, hmeld4, hrest⟩
      exact ⟨s4, mem_allPossibleMelds.mpr ⟨hsub4, hlen4, hmeld4⟩,
        (meld4LoopBody_iff hndP hinj hsub4 hlen4 hhand).mpr hrest⟩
  · rw [if_pos hlen]
    simp only [Bool.false_eq_true, false_iff, not_and]
    intro h13
    exact absurd h13 hlen



/-- C1 (amended): on a hand of pairwise-distinct tokens the evaluator
agrees exactly with the specified decomposition search (`winningSpec`),
and any hand whose length is not 13 evaluates to false. -/
theorem claim_C1_win_evaluator (hs : List String) :
    (hs.Nodup → checkWinningCondition hs = winningSpec hs) ∧
    (¬ hs.length = 13 → checkWinningCondition hs = false) := by
  constructor
  · intro hnd
    exact Bool.coe_iff_coe.mp
      ((checkWinningCondition_iff hnd).trans (winningSpec_iff hnd).symm)
  · intro h13
    unfold checkWinningCondition
    rw [if_pos]
    exact fun h => h13 h

set_option maxRecDepth 200000 in
unseal List.merge List.mergeSort in
/-- C1 counterexample: on `dupTokenHand` (13 tokens, two copies of 5♠)
the claimed decomposition exists — remove the 4-card run 4♠-5♠-6♠-7♠ and
the 9 remaining cards contain the disjoint sets 9♥9♠9♣ and J♦J♠J♣ — yet
the evaluator returns false, because its token-based removal also drops
the second 5♠, leaves 8 cards, and skips the candidate. -/
theorem claim_C1_counterexample :
    checkWinningCondition dupTokenHand = false ∧
    winningSpec dupTokenHand = true :=
  ⟨by decide, by decide⟩

theorem claim_C1_witness :
    nodupWinningHand.Nodup ∧
    checkWinningCondition nodupWinningHand = winningSpec nodupWinningHand ∧
    checkWinningCondition ["A♠"] = false :=
  ⟨by decide, (claim_C1_win_evaluator nodupWinningHand).1 (by decide),
    (claim_C1_win_evaluator ["A♠"]).2 (by decide)⟩

/-- C2 (amended): on a 13-token hand of pairwise-distinct tokens,
removing a candidate 4-meld leaves exactly 9 cards; with duplicated
tokens the token-based filter can drop more than 4 cards. -/
theorem claim_C2_remove_meld4 (hs : List String) (hnd : hs.Nodup)
    (hlen : hs.length = 13) :
    ∀ m4 ∈ allPossibleMelds (hs.map parseCard) 4,
      (remainingAfterMeld4 (hs.map parseCard) m4).length = 9 := by
  intro m4 hm
  obtain ⟨hsub, hlen4, -⟩ := mem_allPossibleMelds.mp hm
  rw [remainingAfterMeld4_eq_filter (tokInj_map_parseCard hs)
      (fun c hc => hsub.subset hc),
    length_filter_not_mem hsub (nodup_map_parseCard hnd),
    List.length_map, hlen, hlen4]

set_option maxRecDepth 200000 in
unseal List.merge List.mergeSort in
/-- C2 counterexample: in `dupTokenHand` the run 4♠-5♠-6♠-7♠ is a
candidate 4-meld, yet removing it leaves 8 cards, not 9: the filter also
deletes the second copy of 5♠. -/
theorem claim_C2_counterexample :
    (["4♠", "5♠", "6♠", "7♠"].map parseCard) ∈
        allPossibleMelds (dupTokenHand.map parseCard) 4 ∧
    (remainingAfterMeld4 (dupTokenHand.map parseCard)
        (["4♠", "5♠", "6♠", "7♠"].map parseCard)).length = 8 :=
  ⟨by decide, by decide⟩

set_option maxRecDepth 200000 in
unseal List.merge List.mergeSort in
theorem claim_C2_witness :
    nodupWinningHand.Nodup ∧ nodupWinningHand.length = 13 ∧
    (remainingAfterMeld4 (nodupWinningHand.map parseCard)
        (["4♠", "5♠", "6♠", "7♠"].map parseCard)).length = 9 :=
  ⟨by decide, by decide,
    claim_C2_remove_meld4 nodupWinningHand (by decide) (by decide) _ (by decide)⟩

/-- C3: the evaluator identifies cards solely by token: the removal step
keeps exactly the hand cards whose token differs from every token of the
chosen 4-meld (so every duplicate copy is dropped too), and two 3-melds
count as disjoint exactly when no token of one equals a token of the
other. -/
theorem claim_C3_token_identification
    (hand meld4 m3one m3two : List ParsedCard) (c : ParsedCard) :
    (c ∈ remainingAfterMeld4 hand meld4 ↔
      c ∈ hand ∧ ∀ c' ∈ meld4, c.original ≠ c'.original) ∧
    (meldsAreDisjoint m3one m3two = true ↔
      ∀ c1 ∈ m3one, ∀ c2 ∈ m3two, c1.original ≠ c2.original) :=
  ⟨mem_remainingAfterMeld4, meldsAreDisjoint_iff⟩

theorem claim_C3_witness :
    meldsAreDisjoint (["9♥", "9♠", "9♣"].map parseCard)
      (["J♦", "J♠", "J♣"].map parseCard) = true :=
  (claim_C3_token_identification [] []
      (["9♥", "9♠", "9♣"].map parseCard)
      (["J♦", "J♠", "J♣"].map parseCard)
      (parseCard "2♥")).2.mpr (by decide)

theorem claim_C4_witness :
    isSet (["7♥", "7♦", "7♣"].map parseCard) = true :=
  (claim_C4_isSet_characterization (["7♥", "7♦", "7♣"].map parseCard)).mpr
    (by decide)

unseal List.merge List.mergeSort in
theorem claim_C5_witness :
    (∀ c ∈ (["Q♠", "K♠", "A♠"].map parseCard), validCard c) ∧
    isRun (["Q♠", "K♠", "A♠"].map parseCard) = true :=
  ⟨by decide,
    (claim_C5_isRun_characterization (["Q♠", "K♠", "A♠"].map parseCard)
        (by decide)).mpr
      ⟨by decide, by decide, Or.inr ⟨by decide, by decide⟩⟩⟩

/-! ## Claims C6–C9: the turn state machine -/

theorem updateAt_length (l : List α) (i : Nat) (f : α → α) :
    (updateAt l i f).length = l.length := by
  induction l generalizing i with
  | nil => rfl
  | cons a as ih =>
    cases i with
    | zero => rfl
    | succ i => simp [updateAt, ih]

theorem get?_updateAt_ne (l : List α) {i j : Nat} (f : α → α) (h : j ≠ i) :
    (updateAt l i f).get? j = l.get? j := by
  induction l generalizing i j with
  | nil => rfl
  | cons a as ih =>
    cases i with
    | zero =>
      cases j with
      | zero => exact absurd rfl h
      | succ j => rfl
    | succ i =>
      cases j with
      | zero => rfl
      | succ j => simpa [updateAt] using ih (fun he => h (by rw [he]))

/-- C9: draw succeeds iff the deck is non-empty and the active hand is
below the 14-card cap; it moves exactly the deck head to the end of the
active hand, leaving turn pointer, discard log, winner and all other
hands unchanged; otherwise it is rejected with no state change. -/
theorem claim_C9_draw_behavior (s : GameState) (p : Player)
    (hw : s.winner = none) (hp : s.players.get? s.currentPlayer = some p) :
    (drawCard s =
      match s.deck with
      | [] => none
      | newCard :: deckRest =>
        if p.cards.length < 14 then
          some { s with
            deck := deckRest
            players := updateAt s.players s.currentPlayer
              (fun q => { q with cards := q.cards ++ [newCard] }) }
        else none) ∧
    (∀ s', drawCard s = some s' →
      s'.currentPlayer = s.currentPlayer ∧
      s'.discardedCards = s.discardedCards ∧
      s'.winner = s.winner ∧
      ∀ j, j ≠ s.currentPlayer → s'.players.get? j = s.players.get? j) := by
  have heq : drawCard s =
      match s.deck with
      | [] => none
      | newCard :: deckRest =>
        if p.cards.length < 14 then
          some { s with
            deck := deckRest
            players := updateAt s.players s.currentPlayer
              (fun q => { q with cards := q.cards ++ [newCard] }) }
        else none := by
    unfold drawCard
    rw [hw]
    cases hd : s.deck with
    | nil => rfl
    | cons newCard deckRest =>
      rw [hp]
      simp only [Option.isSome_none, Bool.false_eq_true, if_false,
        List.length_cons]
      rw [if_neg (by omega)]
      by_cases hcap : p.cards.length < 14
      · rw [if_neg (by unfold MAX_CARDS_PER_PLAYER_LOGIC; omega), if_pos hcap]
      · rw [if_pos (by unfold MAX_CARDS_PER_PLAYER_LOGIC; omega), if_neg hcap]
  refine ⟨heq, fun s' h => ?_⟩
  rw [heq] at h
  cases hd : s.deck with
  | nil =>
    rw [hd] at h
    dsimp only at h
    cases h
  | cons newCard deckRest =>
    rw [hd] at h
    dsimp only at h
    by_cases hcap : p.cards.length < 14
    · rw [if_pos hcap] at h
      obtain rfl := (Option.some.inj h).symm
      exact ⟨rfl, rfl, rfl, fun j hj => get?_updateAt_ne _ _ hj⟩
    · rw [if_neg hcap] at h
      cases h

/-- C8: skip advances the turn pointer by one modulo the player count
iff the active hand has exactly 13 cards and does not satisfy the win
evaluator; otherwise it is rejected with no state change. -/
theorem claim_C8_skip_behavior (s : GameState) (p : Player)
    (hw : s.winner = none) (hp : s.players.get? s.currentPlayer = some p) :
    skipTurn s =
      if p.cards.length = 13 ∧ ¬ checkWinningCondition p.cards = true then
        some { s with currentPlayer := (s.currentPlayer + 1) % s.players.length }
      else none := by
  unfold skipTurn
  rw [hw]
  simp only [Option.isSome_none, Bool.false_eq_true, if_false]
  split
  · rename_i h
    rw [hp] at h
    cases h
  · rename_i q h
    rw [hp] at h
    obtain rfl := Option.some.inj h
    by_cases h13 : p.cards.length = 13
    · rw [if_pos (by unfold MIN_CARDS_PER_PLAYER; omega)]
      by_cases hwin : checkWinningCondition p.cards = true
      · rw [if_pos hwin, if_neg (by tauto)]
      · rw [if_neg hwin, if_pos ⟨h13, hwin⟩]
    · rw [if_neg (by unfold MIN_CARDS_PER_PLAYER; omega), if_neg (by tauto)]

/-- C7: discard of a valid index is legal only above 13 cards; it moves
the indexed card to the end of the discard log and advances the turn
pointer iff the remaining hand has exactly 13 cards and does not win. -/
theorem claim_C7_discard_behavior (s : GameState) (p : Player) (i : Nat)
    (c : String) (hw : s.winner = none)
    (hp : s.players.get? s.currentPlayer = some p)
    (hc : p.cards.get? i = some c) :
    discardCard i s =
      if 13 < p.cards.length then
        some { s with
          players := updateAt s.players s.currentPlayer
            (fun q => { q with cards := p.cards.eraseIdx i })
          discardedCards := s.discardedCards ++ [{ playerId := p.id, card := c }]
          currentPlayer :=
            if (p.cards.eraseIdx i).length = 13 ∧
                ¬ checkWinningCondition (p.cards.eraseIdx i) = true then
              (s.currentPlayer + 1) % s.players.length
            else s.currentPlayer }
      else none := by
  unfold discardCard
  rw [hw]
  simp only [Option.isSome_none, Bool.false_eq_true, if_false]
  split
  · rename_i h
    rw [hp] at h
    cases h
  · rename_i q h
    rw [hp] at h
    obtain rfl := Option.some.inj h
    split
    · rename_i h'
      rw [hc] at h'
      cases h'
    · rename_i c' h'
      rw [hc] at h'
      obtain rfl := Option.some.inj h'
      by_cases hlen : 13 < p.cards.length
      · rw [if_neg (by unfold MIN_CARDS_PER_PLAYER; omega), if_pos hlen]
        rw [updateAt_length]
        by_cases h13 : (p.cards.eraseIdx i).length = 13
        · by_cases hwin : checkWinningCondition (p.cards.eraseIdx i) = true
          · rw [if_neg (fun hcon => by
                have hA := hcon.1
                rw [if_pos ⟨by unfold MIN_CARDS_PER_PLAYER; omega, hwin⟩] at hA
                cases hA),
              if_neg (by tauto)]
          · rw [if_pos ⟨by
                rw [if_neg (by rintro ⟨-, hw'⟩; exact hwin hw'),
                  if_neg (by unfold MIN_CARDS_PER_PLAYER; omega)],
                by unfold MIN_CARDS_PER_PLAYER; omega⟩,
              if_pos ⟨h13, hwin⟩]
        · rw [if_neg (fun hcon => h13 (by
              have hB := hcon.2
              unfold MIN_CARDS_PER_PLAYER at hB
              exact hB)),
            if_neg (by tauto)]
      · rw [if_pos (by unfold MIN_CARDS_PER_PLAYER; omega), if_neg hlen]

/-- C6: declare succeeds iff the active hand has exactly 13 cards and
satisfies the win evaluator, and then records the active player as the
winner; once a winner is set every subsequent draw, discard, skip and
declare is rejected with no state change. -/
theorem claim_C6_declare_behavior (s : GameState) (p : Player)
    (hw : s.winner = none) (hp : s.players.get? s.currentPlayer = some p) :
    (declareWin s =
      if p.cards.length = 13 ∧ checkWinningCondition p.cards = true then
        some { s with winner := some p }
      else none) ∧
    (∀ (t : GameState) (w : Player) (i : Nat), t.winner = some w →
      drawCard t = none ∧ discardCard i t = none ∧ skipTurn t = none ∧
        declareWin t = none) := by
  constructor
  · unfold declareWin
    rw [hw]
    simp only [Option.isSome_none, Bool.false_eq_true, if_false]
    split
    · rename_i h
      rw [hp] at h
      cases h
    · rename_i q h
      rw [hp] at h
      obtain rfl := Option.some.inj h
      rfl
  · intro t w i ht
    have ht' : t.winner.isSome = true := by rw [ht]; rfl
    refine ⟨?_, ?_, ?_, ?_⟩ <;>
      simp only [drawCard, discardCard, skipTurn, declareWin, ht', if_true]








set_option maxRecDepth 200000 in
unseal List.merge List.mergeSort in
theorem claim_C6_witness :
    declareWin winningState = some { winningState with winner := some winPlayer } ∧
    drawCard finishedState = none ∧ discardCard 0 finishedState = none ∧
    skipTurn finishedState = none ∧ declareWin finishedState = none := by
  have h := claim_C6_declare_behavior winningState winPlayer rfl rfl
  have hterm := h.2 finishedState winPlayer 0 rfl
  refine ⟨?_, hterm.1, hterm.2.1, hterm.2.2.1, hterm.2.2.2⟩
  rw [h.1, if_pos ⟨by decide, by decide⟩]

set_option maxRecDepth 200000 in
unseal List.merge List.mergeSort in
theorem claim_C7_witness :
    discardCard 13 discardState =
      some { discardState with
        players := updateAt discardState.players discardState.currentPlayer
          (fun q => { q with cards := hand14.eraseIdx 13 })
        discardedCards := discardState.discardedCards ++
          [{ playerId := 1, card := "3♣" }] } := by
  have h := claim_C7_discard_behavior discardState
    { id := 1, name := "Player 1", cards := hand14 } 13 "3♣" rfl rfl rfl
  rw [h, if_pos (by decide), if_neg (by
    rintro ⟨-, hnw⟩
    exact hnw (by decide))]

set_option maxRecDepth 200000 in
unseal List.merge List.mergeSort in
theorem claim_C8_witness :
    skipTurn skipState = some { skipState with currentPlayer := 1 } := by
  have h := claim_C8_skip_behavior skipState
    { id := 1, name := "Player 1", cards := noMeldHand } rfl rfl
  rw [h, if_pos ⟨by decide, by decide⟩]
  rfl

theorem claim_C9_witness :
    drawCard winningState =
      some { winningState with
        deck := []
        players := updateAt winningState.players winningState.currentPlayer
          (fun q => { q with cards := q.cards ++ ["3♦"] }) } := by
  have h := (claim_C9_draw_behavior winningState winPlayer rfl rfl).1
  rw [h]
  rfl

/-! ## Claim C10: the deck builder -/

theorem cons_set_perm {α : Type _} (new : α) {t : List α} {j : Nat} {orig : α}
    (h : t.get? j = some orig) :
    (orig :: t.set j new).Perm (new :: t) := by
  induction t generalizing j with
  | nil => cases h
  | cons c t' ih =>
    cases j with
    | zero =>
      obtain rfl := Option.some.inj h
      simpa using List.Perm.swap new c t'
    | succ j =>
      have ihh := ih (h : t'.get? j = some orig)
      simp only [List.set_cons_succ]
      exact (List.Perm.swap c orig _).trans
        ((ihh.cons c).trans (List.Perm.swap new c t'))

theorem set_set_perm {α : Type _} :
    ∀ (l : List α) (i j : Nat) (a b : α), l.get? i = some a →
      l.get? j = some b → ((l.set i b).set j a).Perm l := by
  intro l
  induction l with
  | nil => intro i j a b h _; cases h
  | cons c t ih =>
    intro i j a b hi hj
    cases i with
    | zero =>
      obtain rfl := Option.some.inj hi
      cases j with
      | zero =>
        obtain rfl := Option.some.inj hj
        simp
      | succ j =>
        have hj' : t.get? j = some b := hj
        simpa using cons_set_perm c hj'
    | succ i =>
      cases j with
      | zero =>
        obtain rfl := Option.some.inj hj
        have hi' : t.get? i = some a := hi
        simpa using cons_set_perm c hi'
      | succ j =>
        simpa using (ih i j a b hi hj).cons c

theorem swapNth_perm {α : Type _} (l : List α) (i j : Nat) :
    (swapNth l i j).Perm l := by
  unfold swapNth
  split
  · rename_i a b hi hj
    exact set_set_perm l i j a b hi hj
  · exact List.Perm.refl l

theorem fisherYatesAux_perm (rand : Nat → Nat) :
    ∀ (n : Nat) (l : List String), (fisherYatesAux rand l n).Perm l := by
  intro n
  induction n with
  | zero => intro l; exact List.Perm.refl l
  | succ n ih =>
    intro l
    exact (ih _).trans (swapNth_perm l (n + 1) (rand (n + 1) % (n + 2)))

theorem createDeck_perm (n : Nat) (rand : Nat → Nat) :
    (createDeck n rand).Perm (createDeckUnshuffled n) :=
  fisherYatesAux_perm rand _ _

theorem singleDeck_length : singleDeck.length = 52 := by decide

theorem singleDeck_nodup : singleDeck.Nodup := by decide

theorem createDeckUnshuffled_length (n : Nat) :
    (createDeckUnshuffled n).length = 52 * max 1 ((n + 1) / 2) := by
  unfold createDeckUnshuffled
  rw [List.length_flatten, List.map_replicate, singleDeck_length]
  induction max 1 ((n + 1) / 2) with
  | zero => simp
  | succ k ihk =>
    simp only [List.replicate_succ, List.sum_cons, ihk]
    ring

theorem count_createDeckUnshuffled (n : Nat) (t : String) :
    (createDeckUnshuffled n).count t = max 1 ((n + 1) / 2) * singleDeck.count t := by
  unfold createDeckUnshuffled
  rw [List.count_flatten, List.map_replicate]
  induction max 1 ((n + 1) / 2) with
  | zero => simp
  | succ k ihk =>
    simp only [List.replicate_succ, List.sum_cons, ihk]
    ring

/-- C10: for every player count `n ≥ 1` and every sequence of random
draws, `createDeck` returns a permutation of the unshuffled concatenated
decks, of length `52 * ⌈n/2⌉`, holding exactly `⌈n/2⌉` copies of each of
the 52 canonical tokens. -/
theorem claim_C10_createDeck (n : Nat) (rand : Nat → Nat) (hn : 1 ≤ n) :
    (createDeck n rand).Perm (createDeckUnshuffled n) ∧
    (createDeck n rand).length = 52 * ((n + 1) / 2) ∧
    ∀ t ∈ singleDeck, (createDeck n rand).count t = (n + 1) / 2 := by
  have hmax : max 1 ((n + 1) / 2) = (n + 1) / 2 := by omega
  refine ⟨createDeck_perm n rand, ?_, ?_⟩
  · rw [(createDeck_perm n rand).length_eq, createDeckUnshuffled_length, hmax]
  · intro t ht
    rw [(createDeck_perm n rand).count_eq, count_createDeckUnshuffled, hmax,
      List.count_eq_one_of_mem singleDeck_nodup ht, Nat.mul_one]

theorem claim_C10_witness :
    (createDeck 4 (fun i => i + 5)).length = 52 * (5 / 2) ∧
    (createDeck 4 (fun i => i + 5)).count "A♠" = 5 / 2 :=
  ⟨((claim_C10_createDeck 4 (fun i => i + 5) (by decide)).2).1,
    ((claim_C10_createDeck 4 (fun i => i + 5) (by decide)).2).2 "A♠" (by decide)⟩

end Concor
